import Mathlib

/-!
Verification of the Connect Four board engine (`src/connect_four.rs`).

The engine is shallowly embedded: the Rust struct `ConnectFour` becomes a Lean
structure, `&mut self` methods become state-passing functions, and methods that
can panic (`play`, whose two `assert!`s reject an out-of-range or full column)
return `Option`.  Machine integers are modelled as `Nat`; the Rust code never
overflows `usize` on a 6×7 grid, and every subtraction the scans perform is
shown to be underflow-free (theorem for claim C3).
-/

/-- Mirrors `enum Player { One, Two }`. -/
inductive Player : Type where
  | One : Player
  | Two : Player
deriving DecidableEq, Repr

/-- Mirrors `Player::opponent`. -/
def Player.opponent : Player → Player
  | Player.One => Player.Two
  | Player.Two => Player.One

/-- Mirrors `const ROWS: usize = 6`. -/
def ROWS : Nat := 6

/-- Mirrors `const COLUMNS: usize = 7`. -/
def COLUMNS : Nat := 7

/-- Mirrors `struct ConnectFour`.  The Rust fixed-size arrays
`[Option<Player>; ROWS * COLUMNS]` and `[usize; COLUMNS]` are modelled as lists;
their lengths (42 and 7) are maintained as an invariant of every state the
program constructs. -/
structure ConnectFour : Type where
  grid : List (Option Player)
  coins : List Nat
  player : Player
  winner : Option Player
  turns : Nat
deriving DecidableEq, Repr

/-- Mirrors `ConnectFour::new`. -/
def ConnectFour.new : ConnectFour :=
  { grid := List.replicate (ROWS * COLUMNS) none
    coins := List.replicate COLUMNS 0
    player := Player.One
    winner := none
    turns := 0 }

/-- Mirrors `ConnectFour::rows`. -/
def ConnectFour.rows (_ : ConnectFour) : Nat := ROWS

/-- Mirrors `ConnectFour::columns`. -/
def ConnectFour.columns (_ : ConnectFour) : Nat := COLUMNS

/-- Mirrors `ConnectFour::size`. -/
def ConnectFour.size (g : ConnectFour) : Nat := g.grid.length

/-- Mirrors `ConnectFour::over`. -/
def ConnectFour.over (g : ConnectFour) : Bool :=
  g.winner.isSome || (g.turns == g.size)

/-- Mirrors `ConnectFour::last_row`. -/
def ConnectFour.last_row (g : ConnectFour) : Nat := g.rows - 1

/-- Mirrors `ConnectFour::last_column`. -/
def ConnectFour.last_column (g : ConnectFour) : Nat := g.columns - 1

/-- Mirrors `ConnectFour::is_column_full`.  The Rust indexing `self.coins[column]`
is in bounds whenever `column < COLUMNS`; the callers verified here only use it
in that range, so the out-of-range default `0` is never consulted. -/
def ConnectFour.is_column_full (g : ConnectFour) (column : Nat) : Bool :=
  g.coins.getD column 0 == g.rows

/-- Mirrors `ConnectFour::get_index`.  The source asserts
`row < rows ∧ column < columns`; the theorem for claim C3 shows every call made
during win detection satisfies the assertion, and `play` only calls it on the
asserted-valid landing cell. -/
def ConnectFour.get_index (g : ConnectFour) (row column : Nat) : Nat :=
  g.columns * row + column

/-- Mirrors `ConnectFour::get`. -/
def ConnectFour.get (g : ConnectFour) (row column : Nat) : Option Player :=
  g.grid.getD (g.get_index row column) none

/-- Mirrors `ConnectFour::match_indices`: if the four cells are occupied by the
same player, the current player is recorded as the winner. -/
def ConnectFour.match_indices (g : ConnectFour) (i1 i2 i3 i4 : Nat) : ConnectFour :=
  let p1 := g.grid.getD i1 none
  let p2 := g.grid.getD i2 none
  let p3 := g.grid.getD i3 none
  let p4 := g.grid.getD i4 none
  if p1.isSome ∧ p1 = p2 ∧ p2 = p3 ∧ p3 = p4 then
    { g with winner := some g.player }
  else g

/-- The inclusive Rust range `lo..=hi` as a list (empty when `hi < lo`). -/
def offsetRange (lo hi : Nat) : List Nat := List.range' lo (hi + 1 - lo)

/-- Mirrors `ConnectFour::match_row`. -/
def ConnectFour.match_row (g : ConnectFour) (row column : Nat) : ConnectFour :=
  let min_offset := 3 - min column 3
  let max_offset := min (g.last_column - column) 3
  (offsetRange min_offset max_offset).foldl
    (fun g offset =>
      let column := column + offset
      g.match_indices (g.get_index row column) (g.get_index row (column - 1))
        (g.get_index row (column - 2)) (g.get_index row (column - 3)))
    g

/-- Mirrors `ConnectFour::match_column`. -/
def ConnectFour.match_column (g : ConnectFour) (row column : Nat) : ConnectFour :=
  let min_offset := 3 - min row 3
  let max_offset := min (g.last_row - row) 3
  (offsetRange min_offset max_offset).foldl
    (fun g offset =>
      let row := row + offset
      g.match_indices (g.get_index row column) (g.get_index (row - 1) column)
        (g.get_index (row - 2) column) (g.get_index (row - 3) column))
    g

/-- Mirrors `ConnectFour::match_diagonal`. -/
def ConnectFour.match_diagonal (g : ConnectFour) (row column : Nat) : ConnectFour :=
  let min_offset := 3 - min (min row column) 3
  let max_offset := min (min (g.last_row - row) (g.last_column - column)) 3
  (offsetRange min_offset max_offset).foldl
    (fun g offset =>
      let row := row + offset
      let column := column + offset
      g.match_indices (g.get_index row column) (g.get_index (row - 1) (column - 1))
        (g.get_index (row - 2) (column - 2)) (g.get_index (row - 3) (column - 3)))
    g

/-- Mirrors `ConnectFour::match_alternate_diagonal`. -/
def ConnectFour.match_alternate_diagonal (g : ConnectFour) (row column : Nat) : ConnectFour :=
  let min_offset := 3 - min (min row (g.last_column - column)) 3
  let max_offset := min (min (g.last_row - row) column) 3
  (offsetRange min_offset max_offset).foldl
    (fun g offset =>
      let row := row + offset
      let column := column - offset
      g.match_indices (g.get_index row column) (g.get_index (row - 1) (column + 1))
        (g.get_index (row - 2) (column + 2)) (g.get_index (row - 3) (column + 3)))
    g

/-- Mirrors `ConnectFour::play`.  The two leading `assert!`s (column in range,
column not full) become the guard: a rejected call returns `none` and produces
no successor state, which models the Rust panic raised before any mutation. -/
def ConnectFour.play (g : ConnectFour) (column : Nat) : Option ConnectFour :=
  if column < g.columns ∧ g.is_column_full column = false then
    let row := g.last_row - g.coins.getD column 0
    let index := g.get_index row column
    let g1 : ConnectFour :=
      { g with
        grid := g.grid.set index (some g.player)
        coins := g.coins.set column (g.coins.getD column 0 + 1) }
    let g2 := g1.match_row row column
    let g3 := g2.match_column row column
    let g4 := g3.match_diagonal row column
    let g5 := g4.match_alternate_diagonal row column
    some { g5 with turns := g5.turns + 1, player := g5.player.opponent }
  else
    none

/-- Mirrors `ConnectFour::reset`: `fill` keeps the array lengths and the
current player field is not touched. -/
def ConnectFour.reset (g : ConnectFour) : ConnectFour :=
  { g with
    grid := List.replicate g.grid.length none
    coins := List.replicate g.coins.length 0
    winner := none
    turns := 0 }

/-- Driver: a sequence of `play` calls, failing if any call fails. -/
def ConnectFour.playSeq (g : ConnectFour) (cs : List Nat) : Option ConnectFour :=
  cs.foldl (fun acc c => acc.bind (fun h => h.play c)) (some g)

/-- States reachable from a fresh game by valid `play` calls and `reset`s. -/
inductive Reachable : ConnectFour → Prop where
  | new : Reachable ConnectFour.new
  | play {g g' : ConnectFour} {c : Nat} :
      Reachable g → g.play c = some g' → Reachable g'
  | reset {g : ConnectFour} : Reachable g → Reachable g.reset

/-- States reachable from a fresh game by valid `play` calls under the caller
contract that `play` is never invoked once the game is over. -/
inductive ReachableC : ConnectFour → Prop where
  | new : ReachableC ConnectFour.new
  | play {g g' : ConnectFour} {c : Nat} :
      ReachableC g → g.over = false → g.play c = some g' → ReachableC g'

/-- The cell of a row-major 6×7 grid at `(r, c)`. -/
def cellAt (grid : List (Option Player)) (r c : Nat) : Option Player :=
  grid.getD (COLUMNS * r + c) none

/-- Modelled from the spec of claim C1: the brute-force reference scan.  It
reads the entire grid and reports whether four consecutive cells all holding
`p` exist along some horizontal, vertical, principal-diagonal or anti-diagonal
line. -/
def bruteWin (grid : List (Option Player)) (p : Player) : Prop :=
  (∃ r < ROWS, ∃ c < COLUMNS, c + 3 < COLUMNS ∧
    ∀ k < 4, cellAt grid r (c + k) = some p) ∨
  (∃ r < ROWS, r + 3 < ROWS ∧ ∃ c < COLUMNS,
    ∀ k < 4, cellAt grid (r + k) c = some p) ∨
  (∃ r < ROWS, r + 3 < ROWS ∧ ∃ c < COLUMNS, c + 3 < COLUMNS ∧
    ∀ k < 4, cellAt grid (r + k) (c + k) = some p) ∨
  (∃ r < ROWS, r + 3 < ROWS ∧ ∃ c < COLUMNS, 3 ≤ c ∧
    ∀ k < 4, cellAt grid (r + k) (c - k) = some p)

instance (grid : List (Option Player)) (p : Player) : Decidable (bruteWin grid p) := by
  unfold bruteWin; infer_instance

/-- A four-in-a-row of `p` passing through the cell `(row, col)`. -/
def winThrough (grid : List (Option Player)) (row col : Nat) (p : Player) : Prop :=
  (row < ROWS ∧ ∃ cs, cs ≤ col ∧ col ≤ cs + 3 ∧ cs + 3 < COLUMNS ∧
    ∀ k < 4, cellAt grid row (cs + k) = some p) ∨
  (col < COLUMNS ∧ ∃ rs, rs ≤ row ∧ row ≤ rs + 3 ∧ rs + 3 < ROWS ∧
    ∀ k < 4, cellAt grid (rs + k) col = some p) ∨
  (∃ rs ≤ row, row ≤ rs + 3 ∧ rs + 3 < ROWS ∧ ∃ cs ≤ col,
    cs + 3 < COLUMNS ∧ row - rs = col - cs ∧
    ∀ k < 4, cellAt grid (rs + k) (cs + k) = some p) ∨
  (∃ rs ≤ row, row ≤ rs + 3 ∧ rs + 3 < ROWS ∧ ∃ cs < COLUMNS, 3 ≤ cs ∧
    rs + cs = row + col ∧
    ∀ k < 4, cellAt grid (rs + k) (cs - k) = some p)

instance (grid : List (Option Player)) (row col : Nat) (p : Player) :
    Decidable (winThrough grid row col p) := by
  unfold winThrough; infer_instance

/-- The condition under which `match_indices` records a win. -/
def matchCond (grid : List (Option Player)) (i1 i2 i3 i4 : Nat) : Prop :=
  (grid.getD i1 none).isSome ∧ grid.getD i1 none = grid.getD i2 none ∧
    grid.getD i2 none = grid.getD i3 none ∧ grid.getD i3 none = grid.getD i4 none

instance (grid : List (Option Player)) (i1 i2 i3 i4 : Nat) :
    Decidable (matchCond grid i1 i2 i3 i4) := by
  unfold matchCond; infer_instance

/-- Some candidate run examined by `match_row` matches. -/
def rowHit (grid : List (Option Player)) (row col : Nat) : Prop :=
  ∃ off ∈ offsetRange (3 - min col 3) (min (COLUMNS - 1 - col) 3),
    matchCond grid (COLUMNS * row + (col + off)) (COLUMNS * row + (col + off - 1))
      (COLUMNS * row + (col + off - 2)) (COLUMNS * row + (col + off - 3))

/-- Some candidate run examined by `match_column` matches. -/
def columnHit (grid : List (Option Player)) (row col : Nat) : Prop :=
  ∃ off ∈ offsetRange (3 - min row 3) (min (ROWS - 1 - row) 3),
    matchCond grid (COLUMNS * (row + off) + col) (COLUMNS * (row + off - 1) + col)
      (COLUMNS * (row + off - 2) + col) (COLUMNS * (row + off - 3) + col)

/-- Some candidate run examined by `match_diagonal` matches. -/
def diagHit (grid : List (Option Player)) (row col : Nat) : Prop :=
  ∃ off ∈ offsetRange (3 - min (min row col) 3)
      (min (min (ROWS - 1 - row) (COLUMNS - 1 - col)) 3),
    matchCond grid (COLUMNS * (row + off) + (col + off))
      (COLUMNS * (row + off - 1) + (col + off - 1))
      (COLUMNS * (row + off - 2) + (col + off - 2))
      (COLUMNS * (row + off - 3) + (col + off - 3))

/-- Some candidate run examined by `match_alternate_diagonal` matches. -/
def adiagHit (grid : List (Option Player)) (row col : Nat) : Prop :=
  ∃ off ∈ offsetRange (3 - min (min row (COLUMNS - 1 - col)) 3)
      (min (min (ROWS - 1 - row) col) 3),
    matchCond grid (COLUMNS * (row + off) + (col - off))
      (COLUMNS * (row + off - 1) + (col - off + 1))
      (COLUMNS * (row + off - 2) + (col - off + 2))
      (COLUMNS * (row + off - 3) + (col - off + 3))

/-- Some candidate run of one of the four direction scans matches. -/
def scanHit (grid : List (Option Player)) (row col : Nat) : Prop :=
  rowHit grid row col ∨ columnHit grid row col ∨ diagHit grid row col ∨
    adiagHit grid row col

instance (grid : List (Option Player)) (row col : Nat) :
    Decidable (scanHit grid row col) := by
  unfold scanHit rowHit columnHit diagHit adiagHit; infer_instance

/-- The state invariant maintained by the engine: array lengths, the column
fill bound, and the gravity law relating fills to occupied cells. -/
def EngineInv (g : ConnectFour) : Prop :=
  g.grid.length = ROWS * COLUMNS ∧ g.coins.length = COLUMNS ∧
    ∀ c < COLUMNS, g.coins.getD c 0 ≤ ROWS ∧
      ∀ r < ROWS, ((cellAt g.grid r c).isSome = true ↔ ROWS - g.coins.getD c 0 ≤ r)

instance (g : ConnectFour) : Decidable (EngineInv g) := by
  unfold EngineInv; infer_instance

instance (grid : List (Option Player)) (row col : Nat) : Decidable (rowHit grid row col) := by
  unfold rowHit; infer_instance

instance (grid : List (Option Player)) (row col : Nat) : Decidable (columnHit grid row col) := by
  unfold columnHit; infer_instance

instance (grid : List (Option Player)) (row col : Nat) : Decidable (diagHit grid row col) := by
  unfold diagHit; infer_instance

instance (grid : List (Option Player)) (row col : Nat) : Decidable (adiagHit grid row col) := by
  unfold adiagHit; infer_instance

/-- Intermediate state gA1 used by step lemmas. -/
def gA1 : ConnectFour :=
  ⟨[none, none, none, none, none, none, none, none, none, none, none, none, none, none, none, none, none, none, none, none, none, none, none, none, none, none, none, none, none, none, none, none, none, none, none, some Player.One, none, none, none, none, none, none],
   [1, 0, 0, 0, 0, 0, 0], Player.Two, none, 1⟩

/-- Intermediate state gA2 used by step lemmas. -/
def gA2 : ConnectFour :=
  ⟨[none, none, none, none, none, none, none, none, none, none, none, none, none, none, none, none, none, none, none, none, none, none, none, none, none, none, none, none, none, none, none, none, none, none, none, some Player.One, some Player.Two, none, none, none, none, none],
   [1, 1, 0, 0, 0, 0, 0], Player.One, none, 2⟩

/-- Intermediate state gA3 used by step lemmas. -/
def gA3 : ConnectFour :=
  ⟨[none, none, none, none, none, none, none, none, none, none, none, none, none, none, none, none, none, none, none, none, none, none, none, none, none, none, none, none, some Player.One, none, none, none, none, none, none, some Player.One, some Player.Two, none, none, none, none, none],
   [2, 1, 0, 0, 0, 0, 0], Player.Two, none, 3⟩

/-- Intermediate state gA4 used by step lemmas. -/
def gA4 : ConnectFour :=
  ⟨[none, none, none, none, none, none, none, none, none, none, none, none, none, none, none, none, none, none, none, none, none, none, none, none, none, none, none, none, some Player.One, some Player.Two, none, none, none, none, none, some Player.One, some Player.Two, none, none, none, none, none],
   [2, 2, 0, 0, 0, 0, 0], Player.One, none, 4⟩

/-- Intermediate state gA5 used by step lemmas. -/
def gA5 : ConnectFour :=
  ⟨[none, none, none, none, none, none, none, none, none, none, none, none, none, none, none, none, none, none, none, none, none, some Player.One, none, none, none, none, none, none, some Player.One, some Player.Two, none, none, none, none, none, some Player.One, some Player.Two, none, none, none, none, none],
   [3, 2, 0, 0, 0, 0, 0], Player.Two, none, 5⟩

/-- Intermediate state gA6 used by step lemmas. -/
def gA6 : ConnectFour :=
  ⟨[none, none, none, none, none, none, none, none, none, none, none, none, none, none, none, none, none, none, none, none, none, some Player.One, some Player.Two, none, none, none, none, none, some Player.One, some Player.Two, none, none, none, none, none, some Player.One, some Player.Two, none, none, none, none, none],
   [3, 3, 0, 0, 0, 0, 0], Player.One, none, 6⟩

/-- Intermediate state gA7 used by step lemmas. -/
def gA7 : ConnectFour :=
  ⟨[none, none, none, none, none, none, none, none, none, none, none, none, none, none, some Player.One, none, none, none, none, none, none, some Player.One, some Player.Two, none, none, none, none, none, some Player.One, some Player.Two, none, none, none, none, none, some Player.One, some Player.Two, none, none, none, none, none],
   [4, 3, 0, 0, 0, 0, 0], Player.Two, some Player.One, 7⟩

/-- Intermediate state gA8 used by step lemmas. -/
def gA8 : ConnectFour :=
  ⟨[none, none, none, none, none, none, none, none, none, none, none, none, none, none, some Player.One, some Player.Two, none, none, none, none, none, some Player.One, some Player.Two, none, none, none, none, none, some Player.One, some Player.Two, none, none, none, none, none, some Player.One, some Player.Two, none, none, none, none, none],
   [4, 4, 0, 0, 0, 0, 0], Player.One, some Player.Two, 8⟩

/-- Intermediate state gB2 used by step lemmas. -/
def gB2 : ConnectFour :=
  ⟨[none, none, none, none, none, none, none, none, none, none, none, none, none, none, none, none, none, none, none, none, none, none, none, none, none, none, none, none, some Player.Two, none, none, none, none, none, none, some Player.One, none, none, none, none, none, none],
   [2, 0, 0, 0, 0, 0, 0], Player.One, none, 2⟩

/-- Intermediate state gB3 used by step lemmas. -/
def gB3 : ConnectFour :=
  ⟨[none, none, none, none, none, none, none, none, none, none, none, none, none, none, none, none, none, none, none, none, none, some Player.One, none, none, none, none, none, none, some Player.Two, none, none, none, none, none, none, some Player.One, none, none, none, none, none, none],
   [3, 0, 0, 0, 0, 0, 0], Player.Two, none, 3⟩

/-- Intermediate state gB4 used by step lemmas. -/
def gB4 : ConnectFour :=
  ⟨[none, none, none, none, none, none, none, none, none, none, none, none, none, none, some Player.Two, none, none, none, none, none, none, some Player.One, none, none, none, none, none, none, some Player.Two, none, none, none, none, none, none, some Player.One, none, none, none, none, none, none],
   [4, 0, 0, 0, 0, 0, 0], Player.One, none, 4⟩

/-- Intermediate state gB5 used by step lemmas. -/
def gB5 : ConnectFour :=
  ⟨[none, none, none, none, none, none, none, some Player.One, none, none, none, none, none, none, some Player.Two, none, none, none, none, none, none, some Player.One, none, none, none, none, none, none, some Player.Two, none, none, none, none, none, none, some Player.One, none, none, none, none, none, none],
   [5, 0, 0, 0, 0, 0, 0], Player.Two, none, 5⟩

/-- Intermediate state gB6 used by step lemmas. -/
def gB6 : ConnectFour :=
  ⟨[some Player.Two, none, none, none, none, none, none, some Player.One, none, none, none, none, none, none, some Player.Two, none, none, none, none, none, none, some Player.One, none, none, none, none, none, none, some Player.Two, none, none, none, none, none, none, some Player.One, none, none, none, none, none, none],
   [6, 0, 0, 0, 0, 0, 0], Player.One, none, 6⟩

lemma mem_offsetRange {off lo hi : Nat} :
    off ∈ offsetRange lo hi ↔ lo ≤ off ∧ off ≤ hi := by
  unfold offsetRange
  rw [List.mem_range'_1]
  omega

lemma length_offsetRange (lo hi : Nat) : (offsetRange lo hi).length = hi + 1 - lo :=
  List.length_range' ..

lemma getD_set_self {α : Type} (l : List α) (i : Nat) (a d : α) (h : i < l.length) :
    (l.set i a).getD i d = a := by
  rw [List.getD_eq_getElem?_getD, List.getElem?_set_eq_of_lt a h]
  rfl

lemma getD_set_ne {α : Type} (l : List α) {i j : Nat} (a d : α) (h : i ≠ j) :
    (l.set i a).getD j d = l.getD j d := by
  rw [List.getD_eq_getElem?_getD, List.getElem?_set_ne h, ← List.getD_eq_getElem?_getD]

lemma getD_replicate_self {α : Type} (n i : Nat) (a : α) :
    (List.replicate n a).getD i a = a := by
  induction n generalizing i with
  | zero => cases i <;> rfl
  | succ n ih =>
    cases i with
    | zero => rfl
    | succ i => exact ih i

lemma match_indices_eq (g : ConnectFour) (i1 i2 i3 i4 : Nat) :
    g.match_indices i1 i2 i3 i4 =
      if matchCond g.grid i1 i2 i3 i4 then { g with winner := some g.player } else g := by
  by_cases h : matchCond g.grid i1 i2 i3 i4
  · rw [if_pos h]
    unfold ConnectFour.match_indices
    dsimp only
    exact if_pos h
  · rw [if_neg h]
    unfold ConnectFour.match_indices
    dsimp only
    exact if_neg h

lemma foldl_match_indices (t1 t2 t3 t4 : Nat → Nat) (l : List Nat) (g : ConnectFour) :
    l.foldl (fun h off => h.match_indices (t1 off) (t2 off) (t3 off) (t4 off)) g =
      if ∃ off ∈ l, matchCond g.grid (t1 off) (t2 off) (t3 off) (t4 off) then
        { g with winner := some g.player }
      else g := by
  induction l generalizing g with
  | nil => simp
  | cons a l ih =>
    rw [List.foldl_cons, match_indices_eq]
    by_cases h : matchCond g.grid (t1 a) (t2 a) (t3 a) (t4 a)
    · rw [if_pos h, ih]
      have hmem : ∃ off ∈ a :: l, matchCond g.grid (t1 off) (t2 off) (t3 off) (t4 off) :=
        ⟨a, List.mem_cons_self a l, h⟩
      rw [if_pos hmem]
      split <;> rfl
    · rw [if_neg h, ih]
      have hiff : (∃ off ∈ a :: l, matchCond g.grid (t1 off) (t2 off) (t3 off) (t4 off)) ↔
          (∃ off ∈ l, matchCond g.grid (t1 off) (t2 off) (t3 off) (t4 off)) := by
        constructor
        · rintro ⟨o, ho, hc⟩
          rcases List.mem_cons.mp ho with rfl | ho'
          · exact absurd hc h
          · exact ⟨o, ho', hc⟩
        · rintro ⟨o, ho, hc⟩
          exact ⟨o, List.mem_cons_of_mem a ho, hc⟩
      rw [if_congr hiff rfl rfl]

lemma match_row_eq (g : ConnectFour) (row col : Nat) :
    g.match_row row col =
      if rowHit g.grid row col then { g with winner := some g.player } else g :=
  foldl_match_indices (fun off => COLUMNS * row + (col + off))
    (fun off => COLUMNS * row + (col + off - 1))
    (fun off => COLUMNS * row + (col + off - 2))
    (fun off => COLUMNS * row + (col + off - 3))
    (offsetRange (3 - min col 3) (min (COLUMNS - 1 - col) 3)) g

lemma match_column_eq (g : ConnectFour) (row col : Nat) :
    g.match_column row col =
      if columnHit g.grid row col then { g with winner := some g.player } else g :=
  foldl_match_indices (fun off => COLUMNS * (row + off) + col)
    (fun off => COLUMNS * (row + off - 1) + col)
    (fun off => COLUMNS * (row + off - 2) + col)
    (fun off => COLUMNS * (row + off - 3) + col)
    (offsetRange (3 - min row 3) (min (ROWS - 1 - row) 3)) g

lemma match_diagonal_eq (g : ConnectFour) (row col : Nat) :
    g.match_diagonal row col =
      if diagHit g.grid row col then { g with winner := some g.player } else g :=
  foldl_match_indices (fun off => COLUMNS * (row + off) + (col + off))
    (fun off => COLUMNS * (row + off - 1) + (col + off - 1))
    (fun off => COLUMNS * (row + off - 2) + (col + off - 2))
    (fun off => COLUMNS * (row + off - 3) + (col + off - 3))
    (offsetRange (3 - min (min row col) 3) (min (min (ROWS - 1 - row) (COLUMNS - 1 - col)) 3)) g

lemma match_alternate_diagonal_eq (g : ConnectFour) (row col : Nat) :
    g.match_alternate_diagonal row col =
      if adiagHit g.grid row col then { g with winner := some g.player } else g :=
  foldl_match_indices (fun off => COLUMNS * (row + off) + (col - off))
    (fun off => COLUMNS * (row + off - 1) + (col - off + 1))
    (fun off => COLUMNS * (row + off - 2) + (col - off + 2))
    (fun off => COLUMNS * (row + off - 3) + (col - off + 3))
    (offsetRange (3 - min (min row (COLUMNS - 1 - col)) 3) (min (min (ROWS - 1 - row) col) 3)) g

lemma scans_winner (g : ConnectFour) (row col : Nat) :
    (((g.match_row row col).match_column row col).match_diagonal
        row col).match_alternate_diagonal row col =
      { g with winner := if scanHit g.grid row col then some g.player else g.winner } := by
  by_cases h1 : rowHit g.grid row col <;> by_cases h2 : columnHit g.grid row col <;>
    by_cases h3 : diagHit g.grid row col <;> by_cases h4 : adiagHit g.grid row col <;>
    simp [match_row_eq, match_column_eq, match_diagonal_eq, match_alternate_diagonal_eq,
      scanHit, h1, h2, h3, h4]

lemma play_some {g : ConnectFour} {c : Nat} (h1 : c < COLUMNS)
    (h2 : g.is_column_full c = false) :
    g.play c = some
      { grid := g.grid.set (COLUMNS * (ROWS - 1 - g.coins.getD c 0) + c) (some g.player)
        coins := g.coins.set c (g.coins.getD c 0 + 1)
        player := g.player.opponent
        winner :=
          if scanHit (g.grid.set (COLUMNS * (ROWS - 1 - g.coins.getD c 0) + c) (some g.player))
              (ROWS - 1 - g.coins.getD c 0) c then some g.player
          else g.winner
        turns := g.turns + 1 } := by
  unfold ConnectFour.play
  rw [if_pos (⟨h1, h2⟩ : c < g.columns ∧ g.is_column_full c = false)]
  dsimp only
  rw [scans_winner]
  rfl

lemma play_none {g : ConnectFour} {c : Nat}
    (h : ¬(c < COLUMNS ∧ g.is_column_full c = false)) : g.play c = none := by
  unfold ConnectFour.play
  exact if_neg h

lemma play_some_inv {g g' : ConnectFour} {c : Nat} (h : g.play c = some g') :
    c < COLUMNS ∧ g.is_column_full c = false := by
  by_contra hc
  rw [play_none hc] at h
  exact Option.noConfusion h

lemma is_column_full_false_iff {g : ConnectFour} {c : Nat} :
    g.is_column_full c = false ↔ g.coins.getD c 0 ≠ ROWS := by
  unfold ConnectFour.is_column_full ConnectFour.rows
  simp

lemma idx_lt {r c : Nat} (h1 : r < ROWS) (h2 : c < COLUMNS) :
    COLUMNS * r + c < ROWS * COLUMNS := by
  simp only [ROWS, COLUMNS] at *
  omega

lemma idx_inj {r c r' c' : Nat} (h2 : c < COLUMNS) (h2' : c' < COLUMNS)
    (h : COLUMNS * r + c = COLUMNS * r' + c') : r = r' ∧ c = c' := by
  simp only [COLUMNS] at *
  omega

lemma cellAt_set_self {grid : List (Option Player)} {row col : Nat} {v : Option Player}
    (h : COLUMNS * row + col < grid.length) :
    cellAt (grid.set (COLUMNS * row + col) v) row col = v := by
  unfold cellAt
  exact getD_set_self _ _ _ _ h

lemma cellAt_set_ne {grid : List (Option Player)} {row col r c : Nat} {v : Option Player}
    (h : COLUMNS * row + col ≠ COLUMNS * r + c) :
    cellAt (grid.set (COLUMNS * row + col) v) r c = cellAt grid r c := by
  unfold cellAt
  exact getD_set_ne _ _ _ h

lemma matchCond_iff (grid : List (Option Player)) (i1 i2 i3 i4 : Nat) :
    matchCond grid i1 i2 i3 i4 ↔
      ∃ v, grid.getD i1 none = some v ∧ grid.getD i2 none = some v ∧
        grid.getD i3 none = some v ∧ grid.getD i4 none = some v := by
  unfold matchCond
  constructor
  · rintro ⟨h1, h12, h23, h34⟩
    obtain ⟨v, hv⟩ := Option.isSome_iff_exists.mp h1
    exact ⟨v, hv, by rw [← h12, hv], by rw [← h23, ← h12, hv], by rw [← h34, ← h23, ← h12, hv]⟩
  · rintro ⟨v, hv1, hv2, hv3, hv4⟩
    exact ⟨by rw [hv1]; rfl, by rw [hv1, hv2], by rw [hv2, hv3], by rw [hv3, hv4]⟩

lemma rowHit_iff {grid : List (Option Player)} {row col : Nat} {q : Player}
    (hcol : col < COLUMNS) (hq : cellAt grid row col = some q) :
    rowHit grid row col ↔
      (∃ cs, cs ≤ col ∧ col ≤ cs + 3 ∧ cs + 3 < COLUMNS ∧
        ∀ k < 4, cellAt grid row (cs + k) = some q) := by
  have hC : COLUMNS = 7 := rfl
  unfold rowHit cellAt at *
  constructor
  · rintro ⟨off, hoff, hcond⟩
    rw [mem_offsetRange] at hoff
    rw [matchCond_iff] at hcond
    obtain ⟨v, hv1, hv2, hv3, hv4⟩ := hcond
    have hco : 3 ≤ col + off := by omega
    have hall : ∀ k < 4, grid.getD (COLUMNS * row + (col + off - 3 + k)) none = some v := by
      intro k hk
      interval_cases k
      · rw [show col + off - 3 + 0 = col + off - 3 from by omega]; exact hv4
      · rw [show col + off - 3 + 1 = col + off - 2 from by omega]; exact hv3
      · rw [show col + off - 3 + 2 = col + off - 1 from by omega]; exact hv2
      · rw [show col + off - 3 + 3 = col + off from by omega]; exact hv1
    have hvq : v = q := by
      have h := hall (3 - off) (by omega)
      rw [show col + off - 3 + (3 - off) = col from by omega] at h
      rw [h] at hq
      exact Option.some.inj hq
    subst hvq
    exact ⟨col + off - 3, by omega, by omega, by omega, hall⟩
  · rintro ⟨cs, hcs1, hcs2, hcs3, hall⟩
    refine ⟨cs + 3 - col, ?_, ?_⟩
    · rw [mem_offsetRange]; omega
    · rw [matchCond_iff]
      refine ⟨q, ?_, ?_, ?_, ?_⟩
      · rw [show col + (cs + 3 - col) = cs + 3 from by omega]
        exact hall 3 (by omega)
      · rw [show col + (cs + 3 - col) - 1 = cs + 2 from by omega]
        exact hall 2 (by omega)
      · rw [show col + (cs + 3 - col) - 2 = cs + 1 from by omega]
        exact hall 1 (by omega)
      · rw [show col + (cs + 3 - col) - 3 = cs + 0 from by omega]
        exact hall 0 (by omega)

lemma columnHit_iff {grid : List (Option Player)} {row col : Nat} {q : Player}
    (hrow : row < ROWS) (hq : cellAt grid row col = some q) :
    columnHit grid row col ↔
      (∃ rs, rs ≤ row ∧ row ≤ rs + 3 ∧ rs + 3 < ROWS ∧
        ∀ k < 4, cellAt grid (rs + k) col = some q) := by
  have hR : ROWS = 6 := rfl
  unfold columnHit cellAt at *
  constructor
  · rintro ⟨off, hoff, hcond⟩
    rw [mem_offsetRange] at hoff
    rw [matchCond_iff] at hcond
    obtain ⟨v, hv1, hv2, hv3, hv4⟩ := hcond
    have hro : 3 ≤ row + off := by omega
    have hall : ∀ k < 4, grid.getD (COLUMNS * (row + off - 3 + k) + col) none = some v := by
      intro k hk
      interval_cases k
      · rw [show row + off - 3 + 0 = row + off - 3 from by omega]; exact hv4
      · rw [show row + off - 3 + 1 = row + off - 2 from by omega]; exact hv3
      · rw [show row + off - 3 + 2 = row + off - 1 from by omega]; exact hv2
      · rw [show row + off - 3 + 3 = row + off from by omega]; exact hv1
    have hvq : v = q := by
      have h := hall (3 - off) (by omega)
      rw [show row + off - 3 + (3 - off) = row from by omega] at h
      rw [h] at hq
      exact Option.some.inj hq
    subst hvq
    exact ⟨row + off - 3, by omega, by omega, by omega, hall⟩
  · rintro ⟨rs, hrs1, hrs2, hrs3, hall⟩
    refine ⟨rs + 3 - row, ?_, ?_⟩
    · rw [mem_offsetRange]; omega
    · rw [matchCond_iff]
      refine ⟨q, ?_, ?_, ?_, ?_⟩
      · rw [show row + (rs + 3 - row) = rs + 3 from by omega]
        exact hall 3 (by omega)
      · rw [show row + (rs + 3 - row) - 1 = rs + 2 from by omega]
        exact hall 2 (by omega)
      · rw [show row + (rs + 3 - row) - 2 = rs + 1 from by omega]
        exact hall 1 (by omega)
      · rw [show row + (rs + 3 - row) - 3 = rs + 0 from by omega]
        exact hall 0 (by omega)

lemma diagHit_iff {grid : List (Option Player)} {row col : Nat} {q : Player}
    (hrow : row < ROWS) (hcol : col < COLUMNS) (hq : cellAt grid row col = some q) :
    diagHit grid row col ↔
      (∃ rs ≤ row, row ≤ rs + 3 ∧ rs + 3 < ROWS ∧ ∃ cs ≤ col,
        cs + 3 < COLUMNS ∧ row - rs = col - cs ∧
        ∀ k < 4, cellAt grid (rs + k) (cs + k) = some q) := by
  have hR : ROWS = 6 := rfl
  have hC : COLUMNS = 7 := rfl
  unfold diagHit cellAt at *
  constructor
  · rintro ⟨off, hoff, hcond⟩
    rw [mem_offsetRange] at hoff
    rw [matchCond_iff] at hcond
    obtain ⟨v, hv1, hv2, hv3, hv4⟩ := hcond
    have hro : 3 ≤ row + off := by omega
    have hco : 3 ≤ col + off := by omega
    have hall : ∀ k < 4,
        grid.getD (COLUMNS * (row + off - 3 + k) + (col + off - 3 + k)) none = some v := by
      intro k hk
      interval_cases k
      · rw [show row + off - 3 + 0 = row + off - 3 from by omega,
            show col + off - 3 + 0 = col + off - 3 from by omega]
        exact hv4
      · rw [show row + off - 3 + 1 = row + off - 2 from by omega,
            show col + off - 3 + 1 = col + off - 2 from by omega]
        exact hv3
      · rw [show row + off - 3 + 2 = row + off - 1 from by omega,
            show col + off - 3 + 2 = col + off - 1 from by omega]
        exact hv2
      · rw [show row + off - 3 + 3 = row + off from by omega,
            show col + off - 3 + 3 = col + off from by omega]
        exact hv1
    have hvq : v = q := by
      have h := hall (3 - off) (by omega)
      rw [show row + off - 3 + (3 - off) = row from by omega,
          show col + off - 3 + (3 - off) = col from by omega] at h
      rw [h] at hq
      exact Option.some.inj hq
    subst hvq
    exact ⟨row + off - 3, by omega, by omega, by omega, col + off - 3, by omega, by omega,
      by omega, hall⟩
  · rintro ⟨rs, hrs1, hrs2, hrs3, cs, hcs1, hcs2, hcs3, hall⟩
    refine ⟨rs + 3 - row, ?_, ?_⟩
    · rw [mem_offsetRange]; omega
    · rw [matchCond_iff]
      rw [show row + (rs + 3 - row) = rs + 3 from by omega,
          show col + (rs + 3 - row) = cs + 3 from by omega]
      rw [show rs + 3 - 1 = rs + 2 from by omega, show cs + 3 - 1 = cs + 2 from by omega,
          show rs + 3 - 2 = rs + 1 from by omega, show cs + 3 - 2 = cs + 1 from by omega,
          show rs + 3 - 3 = rs + 0 from by omega, show cs + 3 - 3 = cs + 0 from by omega]
      exact ⟨q, hall 3 (by omega), hall 2 (by omega), hall 1 (by omega), hall 0 (by omega)⟩

lemma adiagHit_iff {grid : List (Option Player)} {row col : Nat} {q : Player}
    (hrow : row < ROWS) (hcol : col < COLUMNS) (hq : cellAt grid row col = some q) :
    adiagHit grid row col ↔
      (∃ rs ≤ row, row ≤ rs + 3 ∧ rs + 3 < ROWS ∧ ∃ cs < COLUMNS, 3 ≤ cs ∧
        rs + cs = row + col ∧
        ∀ k < 4, cellAt grid (rs + k) (cs - k) = some q) := by
  have hR : ROWS = 6 := rfl
  have hC : COLUMNS = 7 := rfl
  unfold adiagHit cellAt at *
  constructor
  · rintro ⟨off, hoff, hcond⟩
    rw [mem_offsetRange] at hoff
    rw [matchCond_iff] at hcond
    obtain ⟨v, hv1, hv2, hv3, hv4⟩ := hcond
    have hro : 3 ≤ row + off := by omega
    have hoc : off ≤ col := by omega
    have hco : col - off ≤ 3 := by omega
    have hall : ∀ k < 4,
        grid.getD (COLUMNS * (row + off - 3 + k) + (col - off + 3 - k)) none = some v := by
      intro k hk
      interval_cases k
      · rw [show row + off - 3 + 0 = row + off - 3 from by omega,
            show col - off + 3 - 0 = col - off + 3 from by omega]
        exact hv4
      · rw [show row + off - 3 + 1 = row + off - 2 from by omega,
            show col - off + 3 - 1 = col - off + 2 from by omega]
        exact hv3
      · rw [show row + off - 3 + 2 = row + off - 1 from by omega,
            show col - off + 3 - 2 = col - off + 1 from by omega]
        exact hv2
      · rw [show row + off - 3 + 3 = row + off from by omega,
            show col - off + 3 - 3 = col - off from by omega]
        exact hv1
    have hvq : v = q := by
      have h := hall (3 - off) (by omega)
      rw [show row + off - 3 + (3 - off) = row from by omega,
          show col - off + 3 - (3 - off) = col from by omega] at h
      rw [h] at hq
      exact Option.some.inj hq
    subst hvq
    exact ⟨row + off - 3, by omega, by omega, by omega, col - off + 3, by omega, by omega,
      by omega, hall⟩
  · rintro ⟨rs, hrs1, hrs2, hrs3, cs, hcs1, hcs2, hcs3, hall⟩
    refine ⟨rs + 3 - row, ?_, ?_⟩
    · rw [mem_offsetRange]; omega
    · rw [matchCond_iff]
      rw [show row + (rs + 3 - row) = rs + 3 from by omega,
          show col - (rs + 3 - row) = cs - 3 from by omega]
      rw [show rs + 3 - 1 = rs + 2 from by omega, show cs - 3 + 1 = cs - 2 from by omega,
          show rs + 3 - 2 = rs + 1 from by omega, show cs - 3 + 2 = cs - 1 from by omega,
          show rs + 3 - 3 = rs + 0 from by omega, show cs - 3 + 3 = cs - 0 from by omega]
      exact ⟨q, hall 3 (by omega), hall 2 (by omega), hall 1 (by omega), hall 0 (by omega)⟩

lemma scanHit_iff {grid : List (Option Player)} {row col : Nat} {q : Player}
    (hrow : row < ROWS) (hcol : col < COLUMNS) (hq : cellAt grid row col = some q) :
    scanHit grid row col ↔ winThrough grid row col q := by
  unfold scanHit winThrough
  rw [rowHit_iff hcol hq, columnHit_iff hrow hq, diagHit_iff hrow hcol hq,
    adiagHit_iff hrow hcol hq]
  constructor
  · rintro (h | h | h | h)
    · exact Or.inl ⟨hrow, h⟩
    · exact Or.inr (Or.inl ⟨hcol, h⟩)
    · exact Or.inr (Or.inr (Or.inl h))
    · exact Or.inr (Or.inr (Or.inr h))
  · rintro (⟨_, h⟩ | ⟨_, h⟩ | h | h)
    · exact Or.inl h
    · exact Or.inr (Or.inl h)
    · exact Or.inr (Or.inr (Or.inl h))
    · exact Or.inr (Or.inr (Or.inr h))

lemma winThrough_player_eq {grid : List (Option Player)} {row col : Nat} {p q : Player}
    (hq : cellAt grid row col = some q) : winThrough grid row col p → p = q := by
  rintro (⟨hr, cs, h1, h2, h3, hall⟩ | ⟨hc, rs, h1, h2, h3, hall⟩ |
    ⟨rs, h1, h2, h3, cs, h4, h5, h6, hall⟩ | ⟨rs, h1, h2, h3, cs, h4, h5, h6, hall⟩)
  · have h := hall (col - cs) (by omega)
    rw [show cs + (col - cs) = col from by omega] at h
    rw [hq] at h
    exact (Option.some.inj h).symm
  · have h := hall (row - rs) (by omega)
    rw [show rs + (row - rs) = row from by omega] at h
    rw [hq] at h
    exact (Option.some.inj h).symm
  · have h := hall (row - rs) (by omega)
    rw [show rs + (row - rs) = row from by omega,
        show cs + (row - rs) = col from by omega] at h
    rw [hq] at h
    exact (Option.some.inj h).symm
  · have h := hall (row - rs) (by omega)
    rw [show rs + (row - rs) = row from by omega,
        show cs - (row - rs) = col from by omega] at h
    rw [hq] at h
    exact (Option.some.inj h).symm

lemma winThrough_bruteWin {grid : List (Option Player)} {row col : Nat} {p : Player} :
    winThrough grid row col p → bruteWin grid p := by
  rintro (⟨hr, cs, h1, h2, h3, hall⟩ | ⟨hc, rs, h1, h2, h3, hall⟩ |
    ⟨rs, h1, h2, h3, cs, h4, h5, h6, hall⟩ | ⟨rs, h1, h2, h3, cs, h4, h5, h6, hall⟩)
  · exact Or.inl ⟨row, hr, cs, by omega, h3, hall⟩
  · exact Or.inr (Or.inl ⟨rs, by omega, h3, col, hc, hall⟩)
  · exact Or.inr (Or.inr (Or.inl ⟨rs, by omega, h3, cs, by omega, h5, hall⟩))
  · exact Or.inr (Or.inr (Or.inr ⟨rs, by omega, h3, cs, h4, h5, hall⟩))

lemma bruteWin_set {grid : List (Option Player)} {row col : Nat} {v : Option Player}
    {p : Player} (hrow : row < ROWS) (hcol : col < COLUMNS) :
    bruteWin (grid.set (COLUMNS * row + col) v) p →
      winThrough (grid.set (COLUMNS * row + col) v) row col p ∨ bruteWin grid p := by
  have hR : ROWS = 6 := rfl
  have hC : COLUMNS = 7 := rfl
  rintro (⟨r, hr, c, hcb, hc3, hall⟩ | ⟨r, hr, hr3, c, hcb, hall⟩ |
    ⟨r, hr, hr3, c, hcb, hc3, hall⟩ | ⟨r, hr, hr3, c, hcb, hc3, hall⟩)
  · by_cases hp : r = row ∧ c ≤ col ∧ col ≤ c + 3
    · obtain ⟨rfl, hp2, hp3⟩ := hp
      exact Or.inl (Or.inl ⟨hrow, c, hp2, hp3, hc3, hall⟩)
    · right
      have hp' : r ≠ row ∨ col < c ∨ c + 3 < col := by
        by_contra h
        push_neg at h
        exact hp ⟨h.1, by omega, by omega⟩
      have hne : ∀ k, k < 4 → COLUMNS * row + col ≠ COLUMNS * r + (c + k) := by
        intro k hk heq
        obtain ⟨h1, h2⟩ := idx_inj hcol (show c + k < COLUMNS by omega) heq
        rcases hp' with h | h | h <;> omega
      refine Or.inl ⟨r, hr, c, hcb, hc3, fun k hk => ?_⟩
      rw [← cellAt_set_ne (hne k hk)]
      exact hall k hk
  · by_cases hp : c = col ∧ r ≤ row ∧ row ≤ r + 3
    · obtain ⟨rfl, hp2, hp3⟩ := hp
      exact Or.inl (Or.inr (Or.inl ⟨hcb, r, hp2, hp3, hr3, hall⟩))
    · right
      have hp' : c ≠ col ∨ row < r ∨ r + 3 < row := by
        by_contra h
        push_neg at h
        exact hp ⟨h.1, by omega, by omega⟩
      have hne : ∀ k, k < 4 → COLUMNS * row + col ≠ COLUMNS * (r + k) + c := by
        intro k hk heq
        obtain ⟨h1, h2⟩ := idx_inj hcol hcb heq
        rcases hp' with h | h | h <;> omega
      refine Or.inr (Or.inl ⟨r, hr, hr3, c, hcb, fun k hk => ?_⟩)
      rw [← cellAt_set_ne (hne k hk)]
      exact hall k hk
  · by_cases hp : r ≤ row ∧ row ≤ r + 3 ∧ c ≤ col ∧ row + c = col + r
    · obtain ⟨hp1, hp2, hp3, hp4⟩ := hp
      exact Or.inl (Or.inr (Or.inr (Or.inl
        ⟨r, hp1, hp2, hr3, c, hp3, hc3, by omega, hall⟩)))
    · right
      have hp' : row < r ∨ r + 3 < row ∨ col < c ∨ ¬(row + c = col + r) := by
        by_contra h
        push_neg at h
        exact hp ⟨by omega, by omega, by omega, h.2.2.2⟩
      have hne : ∀ k, k < 4 → COLUMNS * row + col ≠ COLUMNS * (r + k) + (c + k) := by
        intro k hk heq
        obtain ⟨h1, h2⟩ := idx_inj hcol (show c + k < COLUMNS by omega) heq
        rcases hp' with h | h | h | h <;> omega
      refine Or.inr (Or.inr (Or.inl ⟨r, hr, hr3, c, hcb, hc3, fun k hk => ?_⟩))
      rw [← cellAt_set_ne (hne k hk)]
      exact hall k hk
  · by_cases hp : r ≤ row ∧ row ≤ r + 3 ∧ r + c = row + col
    · obtain ⟨hp1, hp2, hp3⟩ := hp
      exact Or.inl (Or.inr (Or.inr (Or.inr ⟨r, hp1, hp2, hr3, c, hcb, hc3, hp3, hall⟩)))
    · right
      have hp' : row < r ∨ r + 3 < row ∨ ¬(r + c = row + col) := by
        by_contra h
        push_neg at h
        exact hp ⟨by omega, by omega, h.2.2⟩
      have hne : ∀ k, k < 4 → COLUMNS * row + col ≠ COLUMNS * (r + k) + (c - k) := by
        intro k hk heq
        obtain ⟨h1, h2⟩ := idx_inj hcol (show c - k < COLUMNS by omega) heq
        rcases hp' with h | h | h <;> omega
      refine Or.inr (Or.inr (Or.inr ⟨r, hr, hr3, c, hcb, hc3, fun k hk => ?_⟩))
      rw [← cellAt_set_ne (hne k hk)]
      exact hall k hk

lemma inv_new : EngineInv ConnectFour.new := by decide

lemma inv_play {g g' : ConnectFour} {c : Nat} (hg : EngineInv g) (h : g.play c = some g') :
    EngineInv g' := by
  obtain ⟨hc7, hfull⟩ := play_some_inv h
  rw [play_some hc7 hfull] at h
  obtain rfl := Option.some.inj h
  obtain ⟨hlen, hclen, hinv⟩ := hg
  have hR : ROWS = 6 := rfl
  have hf6 : g.coins.getD c 0 ≤ ROWS := (hinv c hc7).1
  have hfne : g.coins.getD c 0 ≠ ROWS := is_column_full_false_iff.mp hfull
  have hrow6 : ROWS - 1 - g.coins.getD c 0 < ROWS := by omega
  unfold EngineInv
  refine ⟨by simpa [List.length_set] using hlen, by simpa [List.length_set] using hclen, ?_⟩
  intro c' hc'
  dsimp only
  by_cases hcc : c' = c
  · subst hcc
    have hco : (g.coins.set c' (g.coins.getD c' 0 + 1)).getD c' 0 = g.coins.getD c' 0 + 1 :=
      getD_set_self _ _ _ _ (by rw [hclen]; exact hc')
    rw [hco]
    constructor
    · omega
    · intro r hr
      by_cases hrr : r = ROWS - 1 - g.coins.getD c' 0
      · subst hrr
        rw [cellAt_set_self (by rw [hlen]; exact idx_lt hrow6 hc')]
        simp only [Option.isSome_some]
        constructor
        · intro _; omega
        · intro _; trivial
      · rw [cellAt_set_ne (fun heq => hrr (idx_inj hc' hc' heq).1.symm)]
        have hold := (hinv c' hc').2 r hr
        rw [hold]
        omega
  · have hco : (g.coins.set c (g.coins.getD c 0 + 1)).getD c' 0 = g.coins.getD c' 0 :=
      getD_set_ne _ _ _ (fun hh => hcc hh.symm)
    rw [hco]
    refine ⟨(hinv c' hc').1, fun r hr => ?_⟩
    rw [cellAt_set_ne (fun heq => hcc (idx_inj hc7 hc' heq).2.symm)]
    exact (hinv c' hc').2 r hr

lemma inv_reset {g : ConnectFour} (hg : EngineInv g) : EngineInv g.reset := by
  obtain ⟨hlen, hclen, _⟩ := hg
  unfold EngineInv ConnectFour.reset
  dsimp only
  refine ⟨by simp [hlen], by simp [hclen], ?_⟩
  intro c hc
  rw [getD_replicate_self]
  refine ⟨by omega, fun r hr => ?_⟩
  unfold cellAt
  rw [getD_replicate_self]
  simp only [Option.isSome_none]
  constructor
  · intro hh; exact absurd hh (by simp)
  · intro hh; exfalso; omega

lemma reachableC_reachable {g : ConnectFour} (h : ReachableC g) : Reachable g := by
  induction h with
  | new => exact Reachable.new
  | play h1 h2 h3 ih => exact Reachable.play ih h3

lemma reachable_inv {g : ConnectFour} (h : Reachable g) : EngineInv g := by
  induction h with
  | new => exact inv_new
  | play h1 h2 ih => exact inv_play ih h2
  | reset h1 ih => exact inv_reset ih

lemma reachableC_winner {g : ConnectFour} (hg : ReachableC g) :
    ∀ p, (g.winner = some p ↔ bruteWin g.grid p) := by
  induction hg with
  | new =>
    intro p
    cases p <;> decide
  | play hgr hover hp ih =>
    rename_i g g' c
    obtain ⟨hc7, hfull⟩ := play_some_inv hp
    obtain ⟨hlen, hclen, hinv⟩ := reachable_inv (reachableC_reachable hgr)
    have hR : ROWS = 6 := rfl
    have hwnone : g.winner = none := by
      unfold ConnectFour.over at hover
      cases hw : g.winner with
      | none => rfl
      | some q => rw [hw] at hover; simp at hover
    have hnb : ∀ q, ¬ bruteWin g.grid q := by
      intro q hb
      have hh := (ih q).mpr hb
      rw [hwnone] at hh
      exact Option.noConfusion hh
    rw [play_some hc7 hfull] at hp
    obtain rfl := Option.some.inj hp
    have hf6 : g.coins.getD c 0 ≤ ROWS := (hinv c hc7).1
    have hfne : g.coins.getD c 0 ≠ ROWS := is_column_full_false_iff.mp hfull
    have hrow6 : ROWS - 1 - g.coins.getD c 0 < ROWS := by omega
    have hq : cellAt (g.grid.set (COLUMNS * (ROWS - 1 - g.coins.getD c 0) + c) (some g.player))
        (ROWS - 1 - g.coins.getD c 0) c = some g.player :=
      cellAt_set_self (by rw [hlen]; exact idx_lt hrow6 hc7)
    intro p
    dsimp only
    by_cases hhit : scanHit (g.grid.set (COLUMNS * (ROWS - 1 - g.coins.getD c 0) + c)
        (some g.player)) (ROWS - 1 - g.coins.getD c 0) c
    · rw [if_pos hhit]
      have hwt := (scanHit_iff hrow6 hc7 hq).mp hhit
      constructor
      · intro h
        obtain rfl := Option.some.inj h
        exact winThrough_bruteWin hwt
      · intro hb
        rcases bruteWin_set hrow6 hc7 hb with ht | hold
        · rw [winThrough_player_eq hq ht]
        · exact absurd hold (hnb p)
    · rw [if_neg hhit, hwnone]
      constructor
      · intro h
        exact Option.noConfusion h
      · intro hb
        rcases bruteWin_set hrow6 hc7 hb with ht | hold
        · have hpq := winThrough_player_eq hq ht
          subst hpq
          exact absurd ((scanHit_iff hrow6 hc7 hq).mpr ht) hhit
        · exact absurd hold (hnb p)

lemma foldl_playSeq_none (l : List Nat) :
    l.foldl (fun acc c => acc.bind (fun h => h.play c)) (none : Option ConnectFour) = none := by
  induction l with
  | nil => rfl
  | cons a l ih =>
    rw [List.foldl_cons]
    exact ih

lemma playSeq_cons_some {g h : ConnectFour} {a : Nat} (hpa : g.play a = some h)
    (l : List Nat) : g.playSeq (a :: l) = h.playSeq l := by
  unfold ConnectFour.playSeq
  rw [List.foldl_cons]
  show l.foldl (fun acc c => acc.bind (fun h => h.play c)) (g.play a) =
    l.foldl (fun acc c => acc.bind (fun h => h.play c)) (some h)
  rw [hpa]

lemma playSeq_reachable : ∀ (cs : List Nat) {g g' : ConnectFour},
    Reachable g → g.playSeq cs = some g' → Reachable g' := by
  intro cs
  induction cs with
  | nil =>
    intro g g' hg h
    obtain rfl := Option.some.inj h
    exact hg
  | cons a l ih =>
    intro g g' hg h
    cases hpa : g.play a with
    | none =>
      have hnone : g.playSeq (a :: l) = none := by
        unfold ConnectFour.playSeq
        rw [List.foldl_cons]
        show l.foldl (fun acc c => acc.bind (fun h => h.play c)) (g.play a) = none
        rw [hpa]
        exact foldl_playSeq_none l
      rw [hnone] at h
      exact Option.noConfusion h
    | some hmid =>
      rw [playSeq_cons_some hpa] at h
      exact ih (Reachable.play hg hpa) h

lemma play_gA1 : ConnectFour.new.play 0 = some gA1 := by
  rw [play_some (by decide) (by decide)]; decide

lemma play_gA2 : gA1.play 1 = some gA2 := by
  rw [play_some (by decide) (by decide)]; decide

lemma play_gA3 : gA2.play 0 = some gA3 := by
  rw [play_some (by decide) (by decide)]; decide

lemma play_gA4 : gA3.play 1 = some gA4 := by
  rw [play_some (by decide) (by decide)]; decide

lemma play_gA5 : gA4.play 0 = some gA5 := by
  rw [play_some (by decide) (by decide)]; decide

lemma play_gA6 : gA5.play 1 = some gA6 := by
  rw [play_some (by decide) (by decide)]; decide

lemma play_gA7 : gA6.play 0 = some gA7 := by
  rw [play_some (by decide) (by decide)]; decide

lemma play_gA8 : gA7.play 1 = some gA8 := by
  rw [play_some (by decide) (by decide)]; decide

lemma play_gB2 : gA1.play 0 = some gB2 := by
  rw [play_some (by decide) (by decide)]; decide

lemma play_gB3 : gB2.play 0 = some gB3 := by
  rw [play_some (by decide) (by decide)]; decide

lemma play_gB4 : gB3.play 0 = some gB4 := by
  rw [play_some (by decide) (by decide)]; decide

lemma play_gB5 : gB4.play 0 = some gB5 := by
  rw [play_some (by decide) (by decide)]; decide

lemma play_gB6 : gB5.play 0 = some gB6 := by
  rw [play_some (by decide) (by decide)]; decide

lemma playSeq_A3 : ConnectFour.new.playSeq [0, 1, 0] = some gA3 := by
  rw [playSeq_cons_some play_gA1, playSeq_cons_some play_gA2, playSeq_cons_some play_gA3]
  rfl

lemma playSeq_A7 : ConnectFour.new.playSeq [0, 1, 0, 1, 0, 1, 0] = some gA7 := by
  rw [playSeq_cons_some play_gA1, playSeq_cons_some play_gA2, playSeq_cons_some play_gA3,
    playSeq_cons_some play_gA4, playSeq_cons_some play_gA5, playSeq_cons_some play_gA6,
    playSeq_cons_some play_gA7]
  rfl

lemma playSeq_B6 : ConnectFour.new.playSeq [0, 0, 0, 0, 0, 0] = some gB6 := by
  rw [playSeq_cons_some play_gA1, playSeq_cons_some play_gB2, playSeq_cons_some play_gB3,
    playSeq_cons_some play_gB4, playSeq_cons_some play_gB5, playSeq_cons_some play_gB6]
  rfl

lemma scan_bounds_arith : ∀ row < 6, ∀ col < 7,
    (((offsetRange (3 - min col 3) (min (6 - col) 3)).length ≤ 4 ∧
      ∀ off ∈ offsetRange (3 - min col 3) (min (6 - col) 3),
        3 ≤ col + off ∧ col + off ≤ 6 ∧ row ≤ 5) ∧
    ((offsetRange (3 - min row 3) (min (5 - row) 3)).length ≤ 4 ∧
      ∀ off ∈ offsetRange (3 - min row 3) (min (5 - row) 3),
        3 ≤ row + off ∧ row + off ≤ 5 ∧ col ≤ 6) ∧
    ((offsetRange (3 - min (min row col) 3) (min (min (5 - row) (6 - col)) 3)).length ≤ 4 ∧
      ∀ off ∈ offsetRange (3 - min (min row col) 3) (min (min (5 - row) (6 - col)) 3),
        3 ≤ row + off ∧ row + off ≤ 5 ∧ 3 ≤ col + off ∧ col + off ≤ 6) ∧
    ((offsetRange (3 - min (min row (6 - col)) 3) (min (min (5 - row) col) 3)).length ≤ 4 ∧
      ∀ off ∈ offsetRange (3 - min (min row (6 - col)) 3) (min (min (5 - row) col) 3),
        3 ≤ row + off ∧ row + off ≤ 5 ∧ off ≤ col ∧ col - off + 3 ≤ 6)) := by
  intro row hrow col hcol
  interval_cases row <;> interval_cases col <;> decide

/-- C1: for every board state reachable from `new` by valid `play` calls under
the caller contract (`play` never invoked once the game is over), the winner
recorded by the bounded-window detection run inside `play` is `some p` exactly
when the brute-force scan of the entire grid (`bruteWin`) finds four
consecutive cells holding `p` along some horizontal, vertical,
principal-diagonal or anti-diagonal line. -/
theorem C1_winner_agrees_with_brute_force (g : ConnectFour) (hg : ReachableC g)
    (p : Player) : g.winner = some p ↔ bruteWin g.grid p :=
  reachableC_winner hg p

theorem C1_witness :
    ConnectFour.new.winner = some Player.One ↔ bruteWin ConnectFour.new.grid Player.One :=
  C1_winner_agrees_with_brute_force ConnectFour.new ReachableC.new Player.One

/-- C2: for a state with well-formed array lengths and the maintained fill
bound, a valid `play c` places the pre-call current player's disc at row
`R - 1 - fill[c]`, increments `fill[c]` and `turns_played`, sets the winner to
the player who just moved whenever the new disc completes a four-in-a-row
(evaluated before the turn flips), and flips the current player regardless. -/
theorem C2_play_postconditions (g : ConnectFour) (c : Nat)
    (hlen : g.grid.length = ROWS * COLUMNS) (hclen : g.coins.length = COLUMNS)
    (hfill : g.coins.getD c 0 ≤ ROWS) (hc : c < COLUMNS)
    (hfull : g.is_column_full c = false) :
    ∃ g', g.play c = some g' ∧
      g'.get (g.rows - 1 - g.coins.getD c 0) c = some g.player ∧
      g'.coins.getD c 0 = g.coins.getD c 0 + 1 ∧
      g'.turns = g.turns + 1 ∧
      (winThrough g'.grid (g.rows - 1 - g.coins.getD c 0) c g.player →
        g'.winner = some g.player) ∧
      g'.player = g.player.opponent := by
  have hR : ROWS = 6 := rfl
  have hfne := is_column_full_false_iff.mp hfull
  have hrow6 : ROWS - 1 - g.coins.getD c 0 < ROWS := by omega
  have hq : cellAt (g.grid.set (COLUMNS * (ROWS - 1 - g.coins.getD c 0) + c) (some g.player))
      (ROWS - 1 - g.coins.getD c 0) c = some g.player :=
    cellAt_set_self (by rw [hlen]; exact idx_lt hrow6 hc)
  refine ⟨_, play_some hc hfull, ?_, ?_, ?_, ?_, ?_⟩
  · show (g.grid.set (COLUMNS * (ROWS - 1 - g.coins.getD c 0) + c) (some g.player)).getD
      (COLUMNS * (ROWS - 1 - g.coins.getD c 0) + c) none = some g.player
    exact getD_set_self _ _ _ _ (by rw [hlen]; exact idx_lt hrow6 hc)
  · exact getD_set_self _ _ _ _ (by rw [hclen]; exact hc)
  · rfl
  · intro hwt
    dsimp only
    rw [if_pos ((scanHit_iff hrow6 hc hq).mpr hwt)]
  · rfl

theorem C2_witness :
    ∃ g', ConnectFour.new.play 0 = some g' ∧
      g'.get (ConnectFour.new.rows - 1 - ConnectFour.new.coins.getD 0 0) 0 =
        some ConnectFour.new.player ∧
      g'.coins.getD 0 0 = ConnectFour.new.coins.getD 0 0 + 1 ∧
      g'.turns = ConnectFour.new.turns + 1 ∧
      (winThrough g'.grid (ConnectFour.new.rows - 1 - ConnectFour.new.coins.getD 0 0) 0
          ConnectFour.new.player → g'.winner = some ConnectFour.new.player) ∧
      g'.player = ConnectFour.new.player.opponent :=
  C2_play_postconditions ConnectFour.new 0 (by decide) (by decide) (by decide) (by decide)
    (by decide)

/-- C3: for every landing cell `(row, col)` inside the grid, each direction
scan iterates over the offset range `3 - min(near-edge distance, 3)` to
`min(far-edge distance, 3)`, which contains at most 4 offsets, every column
index it feeds to `get_index` lies in `3 ≤ col + off ≤ last_column` (so the
four cells `col+off-3 … col+off` are in range and no `usize` subtraction
underflows), and likewise for rows and both diagonals, so the bounds assertion
in `get_index` can never fire during win detection. -/
theorem C3_scan_in_bounds (g : ConnectFour) (row col : Nat)
    (hrow : row < g.rows) (hcol : col < g.columns) :
    (((offsetRange (3 - min col 3) (min (g.last_column - col) 3)).length ≤ 4 ∧
      ∀ off ∈ offsetRange (3 - min col 3) (min (g.last_column - col) 3),
        3 ≤ col + off ∧ col + off ≤ g.last_column ∧ row ≤ g.last_row) ∧
    ((offsetRange (3 - min row 3) (min (g.last_row - row) 3)).length ≤ 4 ∧
      ∀ off ∈ offsetRange (3 - min row 3) (min (g.last_row - row) 3),
        3 ≤ row + off ∧ row + off ≤ g.last_row ∧ col ≤ g.last_column) ∧
    ((offsetRange (3 - min (min row col) 3)
        (min (min (g.last_row - row) (g.last_column - col)) 3)).length ≤ 4 ∧
      ∀ off ∈ offsetRange (3 - min (min row col) 3)
          (min (min (g.last_row - row) (g.last_column - col)) 3),
        3 ≤ row + off ∧ row + off ≤ g.last_row ∧ 3 ≤ col + off ∧ col + off ≤ g.last_column) ∧
    ((offsetRange (3 - min (min row (g.last_column - col)) 3)
        (min (min (g.last_row - row) col) 3)).length ≤ 4 ∧
      ∀ off ∈ offsetRange (3 - min (min row (g.last_column - col)) 3)
          (min (min (g.last_row - row) col) 3),
        3 ≤ row + off ∧ row + off ≤ g.last_row ∧ off ≤ col ∧ col - off + 3 ≤ g.last_column)) :=
  scan_bounds_arith row hrow col hcol

theorem C3_witness :
    (((offsetRange (3 - min 0 3) (min (ConnectFour.new.last_column - 0) 3)).length ≤ 4 ∧
      ∀ off ∈ offsetRange (3 - min 0 3) (min (ConnectFour.new.last_column - 0) 3),
        3 ≤ 0 + off ∧ 0 + off ≤ ConnectFour.new.last_column ∧ 5 ≤ ConnectFour.new.last_row) ∧
    ((offsetRange (3 - min 5 3) (min (ConnectFour.new.last_row - 5) 3)).length ≤ 4 ∧
      ∀ off ∈ offsetRange (3 - min 5 3) (min (ConnectFour.new.last_row - 5) 3),
        3 ≤ 5 + off ∧ 5 + off ≤ ConnectFour.new.last_row ∧ 0 ≤ ConnectFour.new.last_column) ∧
    ((offsetRange (3 - min (min 5 0) 3)
        (min (min (ConnectFour.new.last_row - 5) (ConnectFour.new.last_column - 0)) 3)).length ≤ 4 ∧
      ∀ off ∈ offsetRange (3 - min (min 5 0) 3)
          (min (min (ConnectFour.new.last_row - 5) (ConnectFour.new.last_column - 0)) 3),
        3 ≤ 5 + off ∧ 5 + off ≤ ConnectFour.new.last_row ∧ 3 ≤ 0 + off ∧
          0 + off ≤ ConnectFour.new.last_column) ∧
    ((offsetRange (3 - min (min 5 (ConnectFour.new.last_column - 0)) 3)
        (min (min (ConnectFour.new.last_row - 5) 0) 3)).length ≤ 4 ∧
      ∀ off ∈ offsetRange (3 - min (min 5 (ConnectFour.new.last_column - 0)) 3)
          (min (min (ConnectFour.new.last_row - 5) 0) 3),
        3 ≤ 5 + off ∧ 5 + off ≤ ConnectFour.new.last_row ∧ off ≤ 0 ∧
          0 - off + 3 ≤ ConnectFour.new.last_column)) :=
  C3_scan_in_bounds ConnectFour.new 5 0 (by decide) (by decide)

/-- C4 counterexample: the claim says `reset` restores `current_player() ==
First`, but `reset` does not touch the player field.  After one play from a
fresh game the current player is Two, and it is still Two after `reset`. -/
theorem C4_counterexample :
    (ConnectFour.new.play 0).map (fun g => g.reset.player) = some Player.Two ∧
      Player.Two ≠ Player.One := by
  constructor
  · rw [play_gA1]; decide
  · decide

/-- C4 (amended): after any sequence of valid plays and resets, `reset`
restores `turns_played = 0`, `winner = none`, every cell empty and every
column fill zero — everything `new` produces except the current player, which
`reset` leaves as it was. -/
theorem C4_reset_restores_except_player (g : ConnectFour) (_hg : Reachable g) :
    g.reset.turns = 0 ∧ g.reset.winner = none ∧
      (∀ r < ROWS, ∀ c < COLUMNS, cellAt g.reset.grid r c = none) ∧
      (∀ c < COLUMNS, g.reset.coins.getD c 0 = 0) ∧
      g.reset.player = g.player := by
  refine ⟨rfl, rfl, ?_, ?_, rfl⟩
  · intro r _ c _
    exact getD_replicate_self _ _ _
  · intro c _
    exact getD_replicate_self _ _ _

theorem C4_witness :
    ConnectFour.new.reset.turns = 0 ∧ ConnectFour.new.reset.winner = none ∧
      (∀ r < ROWS, ∀ c < COLUMNS, cellAt ConnectFour.new.reset.grid r c = none) ∧
      (∀ c < COLUMNS, ConnectFour.new.reset.coins.getD c 0 = 0) ∧
      ConnectFour.new.reset.player = ConnectFour.new.player :=
  C4_reset_restores_except_player ConnectFour.new Reachable.new

/-- C5: the spec says `play(c)` returns the landing row index
`R - 1 - fill[c]`, and the caller in `main.rs` indeed binds
`let row = self.game.play(column)` and uses it as the landing row of the
animation — but the engine's `play` in `connect_four.rs` has no return value,
so the code drops the `return row` that the spec and the caller require.
Evaluating the engine at the failing input: from a fresh game, `play(0)`
lands the disc at row `R - 1 - 0 = 5`. -/
theorem C5_landing_row_eval :
    (ConnectFour.new.play 0).map (fun g => g.get 5 0) = some (some Player.One) ∧
      ROWS - 1 - ConnectFour.new.coins.getD 0 0 = 5 := by
  constructor
  · rw [play_gA1]; decide
  · decide

/-- C6: a `play` on an out-of-range column or a full column is rejected by the
leading assertions before any mutation takes place: the embedding returns
`none`, producing no successor state, so the entire engine state is exactly
as it was before the call. -/
theorem C6_invalid_play_rejected (g : ConnectFour) (c : Nat)
    (h : COLUMNS ≤ c ∨ g.is_column_full c = true) : g.play c = none := by
  apply play_none
  rintro ⟨h1, h2⟩
  rcases h with h | h
  · exact absurd h1 (by omega)
  · rw [h2] at h
    exact Bool.noConfusion h

theorem C6_witness :
    ConnectFour.new.playSeq [0, 0, 0, 0, 0, 0] = some gB6 ∧ gB6.play 0 = none :=
  ⟨playSeq_B6, C6_invalid_play_rejected gB6 0 (Or.inr (by decide))⟩

/-- C7: in every state reachable from a fresh game by valid plays and resets,
every column fill is at most `R` and a cell `(r, c)` is occupied exactly when
`r ≥ R - fill[c]`: the occupied cells of a column are its bottom `fill[c]`
rows. -/
theorem C7_column_fill_invariant (g : ConnectFour) (c r : Nat) (hg : Reachable g)
    (hc : c < COLUMNS) (hr : r < ROWS) :
    g.coins.getD c 0 ≤ ROWS ∧
      ((g.get r c).isSome = true ↔ ROWS - g.coins.getD c 0 ≤ r) := by
  obtain ⟨hlen, hclen, hinv⟩ := reachable_inv hg
  exact ⟨(hinv c hc).1, (hinv c hc).2 r hr⟩

theorem C7_witness :
    gA3.coins.getD 0 0 ≤ ROWS ∧
      ((gA3.get 4 0).isSome = true ↔ ROWS - gA3.coins.getD 0 0 ≤ 4) :=
  C7_column_fill_invariant gA3 0 4
    (playSeq_reachable [0, 1, 0] Reachable.new playSeq_A3) (by decide) (by decide)

/-- C8: within one game under the caller contract (no play once the game is
over, no reset), the winner changes value at most once: before any
contract-respecting play the winner is none; after the play it is either
still none or `some` of the player who just moved and then four-in-a-row for
that player exists on the board; once the winner is set the game is over, so
the contract forbids any further play that could change it; and only `reset`
returns the winner to none. -/
theorem C8_winner_transitions_once (g : ConnectFour) (c : Nat) (hg : ReachableC g)
    (hover : g.over = false) :
    g.winner = none ∧
      (∀ g', g.play c = some g' →
        (g'.winner = none ∨ (g'.winner = some g.player ∧ bruteWin g'.grid g.player)) ∧
        (∀ p, g'.winner = some p → g'.over = true)) ∧
      g.reset.winner = none := by
  have hwnone : g.winner = none := by
    unfold ConnectFour.over at hover
    cases hw : g.winner with
    | none => rfl
    | some q => rw [hw] at hover; simp at hover
  refine ⟨hwnone, ?_, rfl⟩
  intro g' hp
  have hgC' : ReachableC g' := ReachableC.play hg hover hp
  constructor
  · cases hw' : g'.winner with
    | none => exact Or.inl rfl
    | some p =>
      right
      have hb : bruteWin g'.grid p := (reachableC_winner hgC' p).mp hw'
      obtain ⟨hc7, hfull⟩ := play_some_inv hp
      rw [play_some hc7 hfull] at hp
      obtain rfl := Option.some.inj hp
      dsimp only at hw' hb ⊢
      rw [hwnone] at hw'
      split at hw'
      next hhit =>
        obtain rfl := Option.some.inj hw'
        exact ⟨rfl, hb⟩
      next hhit => exact Option.noConfusion hw'
  · intro p hp'
    unfold ConnectFour.over
    rw [hp']
    rfl

theorem C8_witness :
    ConnectFour.new.winner = none ∧
      (∀ g', ConnectFour.new.play 0 = some g' →
        (g'.winner = none ∨ (g'.winner = some ConnectFour.new.player ∧
          bruteWin g'.grid ConnectFour.new.player)) ∧
        (∀ p, g'.winner = some p → g'.over = true)) ∧
      ConnectFour.new.reset.winner = none :=
  C8_winner_transitions_once ConnectFour.new 0 ReachableC.new (by decide)

/-- C9: `reset` leaves the current-player field unchanged while clearing the
grid, zeroing all column fills, clearing the winner and zeroing the turn
counter: whoever was current before `reset` moves first in the next game. -/
theorem C9_reset_preserves_player (g : ConnectFour) :
    g.reset.player = g.player ∧ g.reset.winner = none ∧ g.reset.turns = 0 ∧
      (∀ c, g.reset.coins.getD c 0 = 0) ∧ (∀ r c, cellAt g.reset.grid r c = none) := by
  refine ⟨rfl, rfl, rfl, ?_, ?_⟩
  · intro c
    exact getD_replicate_self _ _ _
  · intro r c
    exact getD_replicate_self _ _ _

/-- C10: when the caller contract is bypassed, a play that completes a
four-in-a-row for the mover overwrites an already-set winner.  After the
(contract-respecting, hence reachable) sequence 0,1,0,1,0,1,0 player One has a
vertical four in column 0 and `winner()` is `Some(One)`; the
contract-violating extra play in column 1 completes Two's vertical four and
`winner()` becomes `Some(Two)`. -/
theorem C10_winner_overwritten :
    ConnectFour.new.playSeq [0, 1, 0, 1, 0, 1, 0] = some gA7 ∧
      gA7.winner = some Player.One ∧ gA7.play 1 = some gA8 ∧
      gA8.winner = some Player.Two :=
  ⟨playSeq_A7, rfl, play_gA8, rfl⟩
